import Mathlib

/-!
Shallow embedding of `model.py` from the SentimentAnalysis repository.

Tensors over a batch are modelled as lists of rows; floating-point tensor
entries are modelled as rationals (`ℚ`) where the code only manipulates
exact values (masks, accuracies, learning-rate factors) and as reals (`ℝ`)
where genuine transcendental arithmetic occurs (softmax).  External
collaborators (the pretrained BERT encoder, the tokenizer, dropout
randomness, the optimizer's gradient update) are opaque function
parameters, exactly as they are opaque library calls in the source.
-/

namespace SentimentAnalysis

/-! ### Attention-mask builder (`gen_attention_mask`, model.py lines 31-35)

`attention_mask = torch.zeros_like(token_ids)` builds a zero tensor of the
same shape; `attention_mask[i][:v] = 1` writes `1` into the first `v`
entries of row `i` (a Python slice clamps at the row length and never
fails); iterating `enumerate(valid_length)` raises an `IndexError` when
`valid_length` has more entries than the mask has rows, which we model
with `Option`; the final `.float()` cast is absorbed by working in `ℚ`
(every entry is exactly `0` or `1`). -/

/-- Model of the slice assignment `row[:v] = 1`: the first `v` entries
become `1`, the rest are unchanged; a slice past the end clamps. -/
def setSlice1 : List ℚ → ℕ → List ℚ
  | r, 0 => r
  | [], _ + 1 => []
  | _ :: xs, v + 1 => 1 :: setSlice1 xs v

/-- Model of `torch.zeros_like(token_ids)`: a zero matrix of the same
shape as the integer token-id batch. -/
def zerosLike (token_ids : List (List ℤ)) : List (List ℚ) :=
  token_ids.map fun r => r.map fun _ => (0 : ℚ)

/-- Model of the loop `for i, v in enumerate(valid_length):
attention_mask[i][:v] = 1`: row `i` receives the slice assignment for the
`i`-th valid length; running out of rows while lengths remain is the
`IndexError` case (`none`). -/
def applyMask : List (List ℚ) → List ℕ → Option (List (List ℚ))
  | m, [] => some m
  | [], _ :: _ => none
  | r :: m, v :: vs => (applyMask m vs).map fun m2 => setSlice1 r v :: m2

/-- `gen_attention_mask(token_ids, valid_length)` from model.py. -/
def gen_attention_mask (token_ids : List (List ℤ)) (valid_length : List ℕ) :
    Option (List (List ℚ)) :=
  applyMask (zerosLike token_ids) valid_length

/-! ### Dataset (`BERTDataset`, model.py lines 38-50)

A corpus record is an abstract value `R` together with the two field
accessors the constructor uses: `record[sentence_idx]` (the raw text) and
`np.int32(record[label_idx])` (the parsed integer label).  The
`nlp.data.BERTSentenceTransform` tokenizer call is the opaque function
`transform`, returning the `(token_ids, valid_length, segment_ids)`
triple. -/

/-- An encoded sentence: `(token_ids, valid_length, segment_ids)`. -/
abbrev Encoded := List ℤ × ℕ × List ℤ

structure BERTDataset where
  sentence : List Encoded
  labels : List ℤ

/-- `BERTDataset.__init__`: `self.sentence = [transform([record[sentence_idx]])
for record in dataset]` and `self.labels = [np.int32(record[label_idx]) for
record in dataset]`, with the field accesses abstracted into `sentField`
and `labField`. -/
def mkBERTDataset {R : Type} (transform : String → Encoded)
    (sentField : R → String) (labField : R → ℤ) (dataset : List R) :
    BERTDataset where
  sentence := dataset.map fun record => transform (sentField record)
  labels := dataset.map fun record => labField record

/-- `BERTDataset.__getitem__`: `self.sentence[i] + (self.labels[i],)`, the
flattened 4-tuple `(token_ids, valid_length, segment_ids, label)`. -/
def BERTDataset.getItem (d : BERTDataset) (i : ℕ) : List ℤ × ℕ × List ℤ × ℤ :=
  let s := d.sentence.getD i ([], 0, [])
  (s.1, s.2.1, s.2.2, d.labels.getD i 0)

/-- `BERTDataset.__len__`: `len(self.labels)`. -/
def BERTDataset.len (d : BERTDataset) : ℕ := d.labels.length

/-- Modelled from the spec: the repository's Dataset-construction entry
point that first obtains a tokenizer is not under `src/` (src/model.py only
contains `BERTDataset`, which takes a ready tokenizer).  Per the spec, when
neither a vocabulary nor a tokenizer is supplied it returns an empty/null
result (here `none`) instead of raising; when a tokenizer is supplied (or a
vocabulary from which one is derived via `mkTok`) it builds the encoded
collection through `BERTDataset`'s constructor. -/
def get_bert_dataset {V T R : Type} (mkTok : V → T)
    (mkTransform : T → String → Encoded)
    (sentField : R → String) (labField : R → ℤ)
    (vocab : Option V) (tokenizer : Option T) (dataset : List R) :
    Option BERTDataset :=
  match tokenizer, vocab with
  | some t, _ => some (mkBERTDataset (mkTransform t) sentField labField dataset)
  | none, some v =>
      some (mkBERTDataset (mkTransform (mkTok v)) sentField labField dataset)
  | none, none => none

/-! ### Accuracy (`_calc_accuracy`, model.py lines 85-88)

`torch.max(x, 1)` returns, per row, the maximal value and the index of the
first maximal value; `(max_indices == y).sum()` counts positionwise
matches; division is by `max_indices.size()[0]`, the number of rows of
`x`. -/

/-- Index of the first maximal entry, given the best value/index so far
and the index of the next element. -/
def argmaxAux (bi : ℕ) (bv : ℚ) (i : ℕ) : List ℚ → ℕ
  | [] => bi
  | a :: as => if bv < a then argmaxAux i a (i + 1) as else argmaxAux bi bv (i + 1) as

/-- Per-row behaviour of `torch.max(x, 1)[1]`: the index of the first
maximal entry of the row (the empty row does not occur in torch). -/
def rowArgmax : List ℚ → ℕ
  | [] => 0
  | a :: as => argmaxAux 0 a 1 as

/-- `_calc_accuracy(x, y)` from model.py: the match count of per-row
argmax indices against labels, divided by the number of rows. -/
def _calc_accuracy (x : List (List ℚ)) (y : List ℤ) : ℚ :=
  (((x.map rowArgmax).zip y).countP fun p => (p.1 : ℤ) == p.2 : ℕ) / (x.length : ℚ)

/-- The accuracy value as the specification words it, written independently
of `_calc_accuracy`: the fraction of row indices whose arg-max class index
equals the corresponding label. -/
def accuracySpec (x : List (List ℚ)) (y : List ℤ) : ℚ :=
  (((List.range x.length).filter
      fun i => (rowArgmax (x.getD i []) : ℤ) == y.getD i 0).length : ℚ) /
    (x.length : ℚ)

/-! ### Classifier head (`BERTClassifier`, model.py lines 53-82)

The pretrained encoder `self.bert` is the opaque function `bert` producing
the batch of pooled vectors; the dropout layer with its randomness is the
opaque function `dropout` (one realization per call); `torch.nn.Linear`
is `x ↦ W x + b` rowwise; `softmax(·, dim=1)` acts within each row.
The field exponential is a parameter `expF` so that the same definitions
are executable over `ℚ` and instantiable with `Real.exp` over `ℝ`. -/

/-- Python truthiness of the `dr_rate` argument (`if dr_rate:`): `None`
and `0.0` are falsy, every other float is truthy. -/
def pyTruthy : Option ℚ → Bool
  | none => false
  | some r => r != 0

/-- `torch.nn.functional.softmax` along one row of the class dimension. -/
def softmax {α : Type} [Field α] {n : ℕ} (expF : α → α) (z : Fin n → α) :
    Fin n → α :=
  fun i => expF (z i) / ∑ j, expF (z j)

structure BERTClassifier (α : Type) (hidden num_classes : ℕ) where
  W : Fin num_classes → Fin hidden → α
  b : Fin num_classes → α
  dr_rate : Option ℚ

/-- `BERTClassifier.forward`: encoder pooled output, then dropout iff
`self.dr_rate` is truthy (the layer only exists in that case), then the
linear projection `self.classifier`, then a softmax over the class
dimension. -/
def BERTClassifier.forward {α : Type} [Field α] {hidden num_classes : ℕ}
    {X S M : Type} (c : BERTClassifier α hidden num_classes) (expF : α → α)
    (bert : X → S → M → List (Fin hidden → α))
    (dropout : List (Fin hidden → α) → List (Fin hidden → α))
    (x : X) (segment_ids : S) (attention_mask : M) :
    List (Fin num_classes → α) :=
  let pooler := bert x segment_ids attention_mask
  let out := if pyTruthy c.dr_rate then dropout pooler else pooler
  out.map fun p => softmax expF fun i => (∑ j, c.W i j * p j) + c.b i

/-! ### Training/evaluation loop (`sentiment_analysis`, model.py lines 130-192)

The loop is embedded parametrically in the opaque parts: `P` is the model
parameter state, `B` a batch, `step p b` the net effect on the parameters
of one train-batch body (`zero_grad`, forward, backward, gradient clip,
`optimizer.step()`), and `accOf p b` the value `_calc_accuracy(out, label)`
of the batch's forward output under parameters `p`.  The state tracks the
parameters, the number of `scheduler.step()` calls, the two per-epoch
accuracy accumulators, and the number of `torch.save(model.state_dict(),
"model.pt")` executions. -/

structure LoopState (P : Type) where
  params : P
  schedSteps : ℕ
  trainAcc : ℚ
  testAcc : ℚ
  saves : ℕ
  deriving DecidableEq

/-- One iteration of the train loop body: the accuracy term uses the
forward output computed before `optimizer.step()`, hence `accOf st.params
b`; `scheduler.step()` runs exactly once. -/
def trainBatch {P B : Type} (step : P → B → P) (accOf : P → B → ℚ)
    (st : LoopState P) (b : B) : LoopState P where
  params := step st.params b
  schedSteps := st.schedSteps + 1
  trainAcc := st.trainAcc + accOf st.params b
  testAcc := st.testAcc
  saves := st.saves

/-- One iteration of the test loop body (`model.eval()`, under
`torch.no_grad()`): the same forward/accuracy computation, accumulated
into `test_accuracy` only. -/
def testBatch {P B : Type} (accOf : P → B → ℚ) (st : LoopState P) (b : B) :
    LoopState P :=
  { st with testAcc := st.testAcc + accOf st.params b }

/-- The train phase of one epoch: the train loop over all train batches. -/
def trainPhase {P B : Type} (step : P → B → P) (accOf : P → B → ℚ)
    (tb : List B) (st : LoopState P) : LoopState P :=
  tb.foldl (trainBatch step accOf) st

/-- The test phase of one epoch: the test loop over all test batches. -/
def testPhase {P B : Type} (accOf : P → B → ℚ) (vb : List B)
    (st : LoopState P) : LoopState P :=
  vb.foldl (testBatch accOf) st

/-- One epoch body: reset both accuracy accumulators, run the train phase,
run the test phase, then execute `torch.save(model.state_dict(),
"model.pt")` (model.py line 192 is inside the `for e in range(num_epochs)`
loop). -/
def runEpoch {P B : Type} (step : P → B → P) (accOf : P → B → ℚ)
    (tb vb : List B) (st : LoopState P) : LoopState P :=
  let st2 := testPhase accOf vb
    (trainPhase step accOf tb { st with trainAcc := 0, testAcc := 0 })
  { st2 with saves := st2.saves + 1 }

/-- The whole training run: `for e in range(num_epochs)` over epoch
bodies. -/
def trainRun {P B : Type} (step : P → B → P) (accOf : P → B → ℚ)
    (num_epochs : ℕ) (tb vb : List B) (st : LoopState P) : LoopState P :=
  (List.range num_epochs).foldl (fun s _ => runEpoch step accOf tb vb s) st

/-- The fixed checkpoint filename passed to every `torch.save` call. -/
def checkpointPath : String := "model.pt"

/-! ### Learning-rate schedule (model.py lines 126-128)

`t_total = len(train_dataloader) * num_epochs`,
`warmup_steps = int(t_total * warmup_ratio)`, and
`transformers.optimization.get_linear_schedule_with_warmup` multiplies the
base learning rate by
`step/max(1,warmup)` during warmup and
`max(0, (total-step)/max(1,total-warmup))` afterwards. -/

/-- Python `int()` applied to a rational: truncation toward zero. -/
def intTrunc (q : ℚ) : ℤ := if 0 ≤ q then ⌊q⌋ else ⌈q⌉

/-- `t_total = len(train_dataloader) * opt["num_epochs"]`. -/
def tTotal (batches_per_epoch num_epochs : ℕ) : ℕ :=
  batches_per_epoch * num_epochs

/-- `warmup_steps = int(t_total * opt["warmup_ratio"])`. -/
def warmupSteps (batches_per_epoch num_epochs : ℕ) (wr : ℚ) : ℤ :=
  intTrunc ((tTotal batches_per_epoch num_epochs : ℚ) * wr)

/-- The multiplicative factor of the linear-warmup/linear-decay schedule
produced by `get_linear_schedule_with_warmup(optimizer, warmup_steps,
t_total)`, as a function of the scheduler step count. -/
def lrLambda (warmup total step : ℕ) : ℚ :=
  if step < warmup then (step : ℚ) / max 1 (warmup : ℚ)
  else max 0 (((total : ℚ) - (step : ℚ)) / max 1 ((total : ℚ) - (warmup : ℚ)))

/-! ## Theorems -/

/-! ### Helper lemmas about the attention-mask builder -/

theorem setSlice1_length (r : List ℚ) (v : ℕ) :
    (setSlice1 r v).length = r.length := by
  induction r generalizing v with
  | nil => cases v <;> rfl
  | cons a as ih =>
    cases v with
    | zero => rfl
    | succ v => simp [setSlice1, ih]

theorem setSlice1_getD (r : List ℚ) (v j : ℕ) (hj : j < r.length) :
    (setSlice1 r v).getD j 0 = if j < v then 1 else r.getD j 0 := by
  induction r generalizing v j with
  | nil => simp at hj
  | cons a as ih =>
    cases v with
    | zero => simp [setSlice1]
    | succ v =>
      cases j with
      | zero => simp [setSlice1]
      | succ j =>
        have hj' : j < as.length := by simpa using hj
        simpa [setSlice1, Nat.succ_lt_succ_iff] using ih v j hj'

theorem setSlice1_of_le (r : List ℚ) (v : ℕ) (h : r.length ≤ v) :
    setSlice1 r v = List.replicate r.length 1 := by
  induction r generalizing v with
  | nil => cases v <;> rfl
  | cons a as ih =>
    cases v with
    | zero => simp at h
    | succ v =>
      have h' : as.length ≤ v := by simpa using h
      simp [setSlice1, ih v h', List.replicate_succ]

theorem mem_setSlice1 (r : List ℚ) (v : ℕ) (q : ℚ) (h : q ∈ setSlice1 r v) :
    q = 1 ∨ q ∈ r := by
  induction r generalizing v with
  | nil =>
    cases v with
    | zero => simp [setSlice1] at h
    | succ v => simp [setSlice1] at h
  | cons a as ih =>
    cases v with
    | zero => exact Or.inr h
    | succ v =>
      rcases List.mem_cons.mp h with h1 | h1
      · exact Or.inl h1
      · rcases ih v h1 with h2 | h2
        · exact Or.inl h2
        · exact Or.inr (List.mem_cons_of_mem a h2)

theorem applyMask_of_le (m : List (List ℚ)) (vs : List ℕ)
    (h : vs.length ≤ m.length) :
    applyMask m vs =
      some (List.zipWith setSlice1 m vs ++ m.drop vs.length) := by
  induction vs generalizing m with
  | nil => simp [applyMask]
  | cons v vs ih =>
    cases m with
    | nil => simp at h
    | cons r m =>
      have h' : vs.length ≤ m.length := by simpa using h
      simp [applyMask, ih m h']

theorem applyMask_values (m2 : List (List ℚ)) (vs : List ℕ)
    (m : List (List ℚ)) (hm : ∀ r ∈ m, ∀ q ∈ r, q = 0 ∨ q = 1)
    (h : applyMask m vs = some m2) : ∀ r ∈ m2, ∀ q ∈ r, q = 0 ∨ q = 1 := by
  induction vs generalizing m m2 with
  | nil =>
    simp only [applyMask, Option.some.injEq] at h
    exact h ▸ hm
  | cons v vs ih =>
    cases m with
    | nil => simp [applyMask] at h
    | cons r m =>
      simp only [applyMask, Option.map_eq_some'] at h
      obtain ⟨m2', hm2', rfl⟩ := h
      intro s hs q hq
      rcases List.mem_cons.mp hs with h1 | h1
      · rcases mem_setSlice1 r v q (h1 ▸ hq) with h2 | h2
        · exact Or.inr h2
        · exact hm r (List.mem_cons_self r m) q h2
      · exact ih m2' m (fun s hs => hm s (List.mem_cons_of_mem r hs)) hm2' s h1 q hq

theorem zerosLike_length (t : List (List ℤ)) :
    (zerosLike t).length = t.length := by
  simp [zerosLike]

theorem zerosLike_row (t : List (List ℤ)) (i : ℕ) (hi : i < t.length) :
    (zerosLike t).getD i [] = (t.getD i []).map fun _ => (0 : ℚ) := by
  have hi' : i < (zerosLike t).length := by simpa [zerosLike_length] using hi
  rw [List.getD_eq_getElem _ _ hi', List.getD_eq_getElem _ _ hi]
  simp [zerosLike]

theorem getD_map_zero (r : List ℤ) (j : ℕ) :
    (r.map fun _ => (0 : ℚ)).getD j 0 = 0 := by
  induction r generalizing j with
  | nil => simp
  | cons a as ih =>
    cases j with
    | zero => simp
    | succ j => simp [ih j]

/-- C1: for every token-id batch tensor of row length `L` and every parallel
sequence of valid lengths with `v i ≤ L`, `gen_attention_mask` returns a mask
of the same shape as the token-id tensor in which row `i` holds `1.0`
exactly at the positions below `v i` and `0.0` at the remaining `L - v i`
positions (it is a pure function, so nothing else is modified). -/
theorem gen_attention_mask_correct (token_ids : List (List ℤ))
    (valid_length : List ℕ) (L : ℕ)
    (hpar : valid_length.length = token_ids.length)
    (hrow : ∀ r ∈ token_ids, r.length = L)
    (_hv : ∀ v ∈ valid_length, v ≤ L) :
    ∃ mask, gen_attention_mask token_ids valid_length = some mask ∧
      mask.length = token_ids.length ∧
      (∀ i < mask.length, (mask.getD i []).length = L) ∧
      (∀ i < mask.length, ∀ j < L,
        (mask.getD i []).getD j 0 =
          if j < valid_length.getD i 0 then (1 : ℚ) else 0) := by
  have hz : valid_length.length ≤ (zerosLike token_ids).length := by
    rw [zerosLike_length]; exact hpar.le
  have hdrop : (zerosLike token_ids).drop valid_length.length = [] := by
    apply List.drop_eq_nil_of_le
    rw [zerosLike_length, hpar]
  refine ⟨List.zipWith setSlice1 (zerosLike token_ids) valid_length, ?_, ?_, ?_, ?_⟩
  · rw [gen_attention_mask, applyMask_of_le _ _ hz, hdrop, List.append_nil]
  · simp [zerosLike_length, hpar]
  · intro i hi
    rw [List.length_zipWith, zerosLike_length] at hi
    have hit : i < token_ids.length := lt_of_lt_of_le hi (min_le_left _ _)
    have hiv : i < valid_length.length := lt_of_lt_of_le hi (min_le_right _ _)
    have hiz : i < (List.zipWith setSlice1 (zerosLike token_ids) valid_length).length := by
      rw [List.length_zipWith, zerosLike_length]; exact hi
    rw [List.getD_eq_getElem _ _ hiz, List.getElem_zipWith, setSlice1_length]
    have hz' : i < (zerosLike token_ids).length := by rw [zerosLike_length]; exact hit
    rw [← List.getD_eq_getElem _ ([] : List ℚ) hz', zerosLike_row _ _ hit,
      List.length_map]
    refine hrow _ ?_
    rw [List.getD_eq_getElem _ _ hit]
    exact List.getElem_mem hit
  · intro i hi j hj
    rw [List.length_zipWith, zerosLike_length] at hi
    have hit : i < token_ids.length := lt_of_lt_of_le hi (min_le_left _ _)
    have hiv : i < valid_length.length := lt_of_lt_of_le hi (min_le_right _ _)
    have hiz : i < (List.zipWith setSlice1 (zerosLike token_ids) valid_length).length := by
      rw [List.length_zipWith, zerosLike_length]; exact hi
    rw [List.getD_eq_getElem _ _ hiz, List.getElem_zipWith]
    have hz' : i < (zerosLike token_ids).length := by rw [zerosLike_length]; exact hit
    have hrowz : (zerosLike token_ids)[i] = (token_ids.getD i []).map fun _ => (0 : ℚ) := by
      rw [← List.getD_eq_getElem _ ([] : List ℚ) hz']
      exact zerosLike_row _ _ hit
    have hlen : ((zerosLike token_ids)[i]).length = L := by
      rw [hrowz, List.length_map]
      refine hrow _ ?_
      rw [List.getD_eq_getElem _ _ hit]
      exact List.getElem_mem hit
    rw [setSlice1_getD _ _ _ (by rw [hlen]; exact hj), hrowz, getD_map_zero,
      List.getD_eq_getElem _ _ hiv]

/-- Witness for C1 at a concrete batch. -/
theorem gen_attention_mask_correct_witness :
    ∃ mask,
      gen_attention_mask [[5, 7], [1, 2]] [1, 2] = some mask ∧
      mask.length = ([[5, 7], [1, 2]] : List (List ℤ)).length ∧
      (∀ i < mask.length, (mask.getD i []).length = 2) ∧
      (∀ i < mask.length, ∀ j < 2,
        (mask.getD i []).getD j 0 =
          if j < ([1, 2] : List ℕ).getD i 0 then (1 : ℚ) else 0) :=
  gen_attention_mask_correct [[5, 7], [1, 2]] [1, 2] 2 (by decide) (by decide)
    (by decide)

/-- C10: `gen_attention_mask` is total over out-of-range valid lengths: a
valid length greater than the row length yields an all-ones row (the slice
clamps, no error is raised), and every returned mask only contains the
values `0.0` and `1.0`. -/
theorem gen_attention_mask_clamps (token_ids : List (List ℤ))
    (valid_length : List ℕ) (L : ℕ)
    (hlen : valid_length.length ≤ token_ids.length)
    (hrow : ∀ r ∈ token_ids, r.length = L) :
    ∃ mask, gen_attention_mask token_ids valid_length = some mask ∧
      (∀ i < valid_length.length, L < valid_length.getD i 0 →
        mask.getD i [] = List.replicate L 1) ∧
      (∀ r ∈ mask, ∀ q ∈ r, q = 0 ∨ q = 1) := by
  have hz : valid_length.length ≤ (zerosLike token_ids).length := by
    rw [zerosLike_length]; exact hlen
  have hsome : gen_attention_mask token_ids valid_length =
      some (List.zipWith setSlice1 (zerosLike token_ids) valid_length ++
        (zerosLike token_ids).drop valid_length.length) :=
    applyMask_of_le _ _ hz
  refine ⟨_, hsome, ?_, ?_⟩
  · intro i hi hL
    have hit : i < token_ids.length := lt_of_lt_of_le hi hlen
    have hiz : i < (List.zipWith setSlice1 (zerosLike token_ids) valid_length).length := by
      rw [List.length_zipWith, zerosLike_length]
      exact lt_min hit hi
    have happ : i < (List.zipWith setSlice1 (zerosLike token_ids) valid_length ++
        (zerosLike token_ids).drop valid_length.length).length := by
      rw [List.length_append]
      exact lt_of_lt_of_le hiz (Nat.le_add_right _ _)
    rw [List.getD_eq_getElem _ _ happ, List.getElem_append_left hiz,
      List.getElem_zipWith]
    have hz' : i < (zerosLike token_ids).length := by
      rw [zerosLike_length]; exact hit
    have hrowz : (zerosLike token_ids)[i] = (token_ids.getD i []).map fun _ => (0 : ℚ) := by
      rw [← List.getD_eq_getElem _ ([] : List ℚ) hz']
      exact zerosLike_row _ _ hit
    have hlenr : ((zerosLike token_ids)[i]).length = L := by
      rw [hrowz, List.length_map]
      refine hrow _ ?_
      rw [List.getD_eq_getElem _ _ hit]
      exact List.getElem_mem hit
    rw [List.getD_eq_getElem _ _ hi] at hL
    rw [setSlice1_of_le _ _ (by rw [hlenr]; exact hL.le), hlenr]
  · intro r hr q hq
    have hzvals : ∀ s ∈ zerosLike token_ids, ∀ p ∈ s, p = (0 : ℚ) ∨ p = 1 := by
      intro s hs p hp
      obtain ⟨s0, _, rfl⟩ := List.mem_map.mp hs
      obtain ⟨p0, _, rfl⟩ := List.mem_map.mp hp
      exact Or.inl rfl
    exact applyMask_values _ valid_length (zerosLike token_ids) hzvals
      (applyMask_of_le _ _ hz) r hr q hq

/-- Witness for C10 at a concrete out-of-range batch. -/
theorem gen_attention_mask_clamps_witness :
    ∃ mask, gen_attention_mask [[3, 4]] [5] = some mask ∧
      (∀ i < ([5] : List ℕ).length, 2 < ([5] : List ℕ).getD i 0 →
        mask.getD i [] = List.replicate 2 1) ∧
      (∀ r ∈ mask, ∀ q ∈ r, q = 0 ∨ q = 1) :=
  gen_attention_mask_clamps [[3, 4]] [5] 2 (by decide) (by decide)

/-! ### Accuracy and dataset -/

theorem countP_zip_eq_filter_range (as : List ℕ) (bs : List ℤ)
    (h : as.length = bs.length) :
    ((as.zip bs).countP fun p => (p.1 : ℤ) == p.2) =
      ((List.range as.length).filter
        fun i => ((as.getD i 0 : ℤ) == bs.getD i 0)).length := by
  induction as generalizing bs with
  | nil => simp
  | cons a as ih =>
    cases bs with
    | nil => simp at h
    | cons b bs =>
      have h' : as.length = bs.length := by simpa using h
      rw [List.zip_cons_cons, List.countP_cons, ih bs h']
      rw [List.length_cons, List.range_succ_eq_map, List.filter_cons,
        List.filter_map]
      simp only [List.getD_cons_zero, List.getD_cons_succ, List.length_map,
        Function.comp]
      by_cases hab : (a : ℤ) = b
      · simp [hab, Nat.add_comm, Function.comp_def]
      · simp [hab, Function.comp_def]

/-- C4: `_calc_accuracy` returns the fraction of rows whose arg-max class
index equals the corresponding label (stated via the independently written
`accuracySpec`), and on predictions `[[0.9, 0.1], [0.2, 0.8]]` with labels
`[0, 0]` it returns `0.5`. -/
theorem calc_accuracy_correct (x : List (List ℚ)) (y : List ℤ)
    (_hne : x ≠ []) (hlen : x.length = y.length) :
    _calc_accuracy x y = accuracySpec x y ∧
    _calc_accuracy [[9/10, 1/10], [2/10, 8/10]] [0, 0] = 1/2 := by
  constructor
  · rw [_calc_accuracy, accuracySpec]
    have hzip := countP_zip_eq_filter_range (x.map rowArgmax) y
      (by simpa using hlen)
    rw [List.length_map] at hzip
    have hfeq : List.filter
        (fun i => ((x.map rowArgmax).getD i 0 : ℤ) == y.getD i 0)
        (List.range x.length) =
      List.filter (fun i => ((rowArgmax (x.getD i []) : ℤ) == y.getD i 0))
        (List.range x.length) := by
      apply List.filter_congr
      intro i hi
      have hix : i < x.length := by simpa using hi
      have hmap : (x.map rowArgmax).getD i 0 = rowArgmax (x.getD i []) := by
        rw [List.getD_eq_getElem _ _ (by simpa using hix), List.getElem_map,
          List.getD_eq_getElem _ _ hix]
      rw [hmap]
    rw [hzip, hfeq]
  · have hcount : ((([[9/10, 1/10], [2/10, 8/10]] : List (List ℚ)).map
        rowArgmax).zip [(0 : ℤ), 0]).countP
          (fun p => (p.1 : ℤ) == p.2) = 1 := by
      norm_num [rowArgmax, argmaxAux]
    rw [_calc_accuracy, hcount]
    norm_num

/-- Witness for C4 at the spec's concrete example. -/
theorem calc_accuracy_correct_witness :
    _calc_accuracy [[9/10, 1/10], [2/10, 8/10]] [0, 0] =
      accuracySpec [[9/10, 1/10], [2/10, 8/10]] [0, 0] ∧
    _calc_accuracy [[9/10, 1/10], [2/10, 8/10]] [0, 0] = 1/2 :=
  calc_accuracy_correct [[9/10, 1/10], [2/10, 8/10]] [0, 0] (by simp) (by simp)

/-- C3: when Dataset construction is invoked without a tokenizer source
(neither a vocabulary nor a tokenizer), it returns the null result `none`
rather than raising (the embedding is a total function); when a tokenizer
is supplied, construction succeeds with the encoded collection built by
`BERTDataset`'s constructor. -/
theorem get_bert_dataset_missing_source {V T R : Type} (mkTok : V → T)
    (mkTransform : T → String → Encoded) (sentField : R → String)
    (labField : R → ℤ) (dataset : List R) :
    get_bert_dataset mkTok mkTransform sentField labField none none dataset =
      none ∧
    ∀ (vocab : Option V) (t : T),
      get_bert_dataset mkTok mkTransform sentField labField vocab (some t)
          dataset =
        some (mkBERTDataset (mkTransform t) sentField labField dataset) :=
  ⟨rfl, fun _ _ => rfl⟩

/-- C5: a constructed Dataset over `n` corpus records has length `n`
(`__len__` counts the encoded examples), and indexing at any `i < n`
returns the 4-tuple `(token_ids, valid_length, segment_ids, label)` encoded
from record `i`. -/
theorem bert_dataset_getitem {R : Type} (transform : String → Encoded)
    (sentField : R → String) (labField : R → ℤ) (dataset : List R)
    (i : ℕ) (hi : i < dataset.length) :
    (mkBERTDataset transform sentField labField dataset).len =
      dataset.length ∧
    (mkBERTDataset transform sentField labField dataset).getItem i =
      ((transform (sentField dataset[i])).1,
       (transform (sentField dataset[i])).2.1,
       (transform (sentField dataset[i])).2.2,
       labField dataset[i]) := by
  constructor
  · simp [mkBERTDataset, BERTDataset.len]
  · have hs : i < (dataset.map fun record =>
        transform (sentField record)).length := by simpa using hi
    have hl : i < (dataset.map fun record => labField record).length := by
      simpa using hi
    rw [BERTDataset.getItem, mkBERTDataset]
    simp only [List.getD_eq_getElem _ _ hs, List.getD_eq_getElem _ _ hl,
      List.getElem_map]

/-- Witness for C5 on a concrete one-record corpus. -/
theorem bert_dataset_getitem_witness :
    (mkBERTDataset (fun _ => ([1], 2, [3])) (fun _ => "") (fun n => (n : ℤ))
        [7]).len = ([7] : List ℕ).length ∧
    (mkBERTDataset (fun _ => ([1], 2, [3])) (fun _ => "") (fun n => (n : ℤ))
        [7]).getItem 0 = ([1], 2, [3], (7 : ℤ)) :=
  bert_dataset_getitem (fun _ => ([1], 2, [3])) (fun _ => "")
    (fun n => (n : ℤ)) [7] 0 (by decide)

/-! ### Classifier head -/

/-- C6: with a falsy drop-out rate (`None` or `0.0`) the dropout stage of
`BERTClassifier.forward` is the identity — the output equals the forward
pass with the identity in the dropout slot — and the forward pass is
deterministic: two calls on identical inputs with identical parameters
agree for any two dropout realizations. -/
theorem forward_no_dropout_deterministic {α : Type} [Field α]
    {hidden num_classes : ℕ} {X S M : Type}
    (c : BERTClassifier α hidden num_classes) (expF : α → α)
    (bert : X → S → M → List (Fin hidden → α))
    (dropout1 dropout2 : List (Fin hidden → α) → List (Fin hidden → α))
    (x : X) (segment_ids : S) (attention_mask : M)
    (hdr : pyTruthy c.dr_rate = false) :
    c.forward expF bert dropout1 x segment_ids attention_mask =
      c.forward expF bert (fun p => p) x segment_ids attention_mask ∧
    c.forward expF bert dropout1 x segment_ids attention_mask =
      c.forward expF bert dropout2 x segment_ids attention_mask := by
  constructor <;> simp [BERTClassifier.forward, hdr]

/-- Witness for C6 with two distinct concrete dropout realizations. -/
theorem forward_no_dropout_deterministic_witness :
    (⟨fun _ _ => 0, fun _ => 0, none⟩ : BERTClassifier ℚ 1 1).forward id
        (fun (_ : Unit) (_ : Unit) (_ : Unit) => [fun _ => (0 : ℚ)])
        (fun _ => []) () () () =
      (⟨fun _ _ => 0, fun _ => 0, none⟩ : BERTClassifier ℚ 1 1).forward id
        (fun _ _ _ => [fun _ => 0]) (fun p => p) () () () ∧
    (⟨fun _ _ => 0, fun _ => 0, none⟩ : BERTClassifier ℚ 1 1).forward id
        (fun _ _ _ => [fun _ => 0]) (fun _ => []) () () () =
      (⟨fun _ _ => 0, fun _ => 0, none⟩ : BERTClassifier ℚ 1 1).forward id
        (fun _ _ _ => [fun _ => 0]) (fun l => l ++ l) () () () :=
  forward_no_dropout_deterministic
    (⟨fun _ _ => 0, fun _ => 0, none⟩ : BERTClassifier ℚ 1 1) id
    (fun _ _ _ => [fun _ => 0]) (fun _ => []) (fun l => l ++ l) () () () rfl

/-- C7: every row of the classifier head's output is a softmax over the
class dimension of the linear projection of the (possibly dropped-out)
pooled encoder output, so each output row sums to `1` and has non-negative
entries (exactly, over `ℝ`). -/
theorem forward_rows_softmax {hidden num_classes : ℕ} {X S M : Type}
    (c : BERTClassifier ℝ hidden num_classes)
    (bert : X → S → M → List (Fin hidden → ℝ))
    (dropout : List (Fin hidden → ℝ) → List (Fin hidden → ℝ))
    (x : X) (segment_ids : S) (attention_mask : M)
    (hn : 0 < num_classes) (row : Fin num_classes → ℝ)
    (hrow : row ∈ c.forward Real.exp bert dropout x segment_ids attention_mask) :
    (∑ i, row i) = 1 ∧ ∀ i, 0 ≤ row i := by
  rw [BERTClassifier.forward] at hrow
  obtain ⟨p, _, rfl⟩ := List.mem_map.mp hrow
  have hne : Nonempty (Fin num_classes) := ⟨⟨0, hn⟩⟩
  have hS : 0 < ∑ j, Real.exp ((∑ k, c.W j k * p k) + c.b j) :=
    Finset.sum_pos (fun j _ => Real.exp_pos _) Finset.univ_nonempty
  constructor
  · simp only [softmax]
    rw [← Finset.sum_div]
    exact div_self (ne_of_gt hS)
  · intro i
    exact div_nonneg (Real.exp_pos _).le hS.le

/-- Witness for C7 on a concrete one-row batch with two classes. -/
theorem forward_rows_softmax_witness :
    (∑ i, softmax Real.exp (fun _ : Fin 2 =>
      (∑ _k : Fin 1, (0 : ℝ) * 0) + 0) i) = 1 ∧
    ∀ i, 0 ≤ softmax Real.exp (fun _ : Fin 2 =>
      (∑ _k : Fin 1, (0 : ℝ) * 0) + 0) i :=
  forward_rows_softmax
    (⟨fun _ _ => 0, fun _ => 0, none⟩ : BERTClassifier ℝ 1 2)
    (fun (_ : Unit) (_ : Unit) (_ : Unit) => [fun _ => (0 : ℝ)])
    (fun p => p) () () () (by decide) _ (List.mem_singleton.mpr rfl)

/-! ### Training/evaluation loop -/

theorem testPhase_fields {P B : Type} (accOf : P → B → ℚ) (vb : List B)
    (st : LoopState P) :
    (testPhase accOf vb st).params = st.params ∧
    (testPhase accOf vb st).schedSteps = st.schedSteps ∧
    (testPhase accOf vb st).trainAcc = st.trainAcc ∧
    (testPhase accOf vb st).saves = st.saves ∧
    (testPhase accOf vb st).testAcc =
      st.testAcc + (vb.map (accOf st.params)).sum := by
  induction vb generalizing st with
  | nil => simp [testPhase]
  | cons b bs ih =>
    have hstep : testPhase accOf (b :: bs) st =
        testPhase accOf bs (testBatch accOf st b) := rfl
    obtain ⟨h1, h2, h3, h4, h5⟩ := ih (testBatch accOf st b)
    rw [hstep]
    refine ⟨h1, h2, h3, h4, ?_⟩
    rw [h5]
    simp [testBatch, add_assoc]

theorem trainPhase_fields {P B : Type} (step : P → B → P) (accOf : P → B → ℚ)
    (tb : List B) (st : LoopState P) :
    (trainPhase step accOf tb st).schedSteps = st.schedSteps + tb.length ∧
    (trainPhase step accOf tb st).testAcc = st.testAcc ∧
    (trainPhase step accOf tb st).saves = st.saves := by
  induction tb generalizing st with
  | nil => simp [trainPhase]
  | cons b bs ih =>
    have hstep : trainPhase step accOf (b :: bs) st =
        trainPhase step accOf bs (trainBatch step accOf st b) := rfl
    obtain ⟨h1, h2, h3⟩ := ih (trainBatch step accOf st b)
    rw [hstep]
    refine ⟨?_, ?_, ?_⟩
    · rw [h1]
      simp [trainBatch]
      ring
    · rw [h2, trainBatch]
    · rw [h3, trainBatch]

theorem runEpoch_saves {P B : Type} (step : P → B → P) (accOf : P → B → ℚ)
    (tb vb : List B) (st : LoopState P) :
    (runEpoch step accOf tb vb st).saves = st.saves + 1 := by
  rw [runEpoch]
  have h1 := (trainPhase_fields step accOf tb
    { st with trainAcc := 0, testAcc := 0 }).2.2
  have h2 := (testPhase_fields accOf vb
    (trainPhase step accOf tb { st with trainAcc := 0, testAcc := 0 })).2.2.2.1
  simp only [h2, h1]

theorem runEpoch_schedSteps {P B : Type} (step : P → B → P)
    (accOf : P → B → ℚ) (tb vb : List B) (st : LoopState P) :
    (runEpoch step accOf tb vb st).schedSteps = st.schedSteps + tb.length := by
  rw [runEpoch]
  have h1 := (trainPhase_fields step accOf tb
    { st with trainAcc := 0, testAcc := 0 }).1
  have h2 := (testPhase_fields accOf vb
    (trainPhase step accOf tb { st with trainAcc := 0, testAcc := 0 })).2.1
  simp only [h2, h1]

theorem trainRun_succ {P B : Type} (step : P → B → P) (accOf : P → B → ℚ)
    (n : ℕ) (tb vb : List B) (st : LoopState P) :
    trainRun step accOf (n + 1) tb vb st =
      runEpoch step accOf tb vb (trainRun step accOf n tb vb st) := by
  rw [trainRun, trainRun, List.range_succ, List.foldl_append, List.foldl_cons,
    List.foldl_nil]

/-- C9: the test phase of every epoch runs the same forward/accuracy
computation as the train phase (the same `accOf` of the current
parameters) but performs no parameter update and no scheduler step: after
the test phase every model parameter, the scheduler step count, the train
accuracy and the checkpoint count are unchanged, and the only effect is
the accumulation of test accuracy, whose per-batch increment equals the
train phase's accuracy increment for the same batch and parameters. -/
theorem test_phase_no_update {P B : Type} (accOf : P → B → ℚ) (vb : List B)
    (st : LoopState P) :
    (testPhase accOf vb st).params = st.params ∧
    (testPhase accOf vb st).schedSteps = st.schedSteps ∧
    (testPhase accOf vb st).trainAcc = st.trainAcc ∧
    (testPhase accOf vb st).saves = st.saves ∧
    (testPhase accOf vb st).testAcc =
      st.testAcc + (vb.map (accOf st.params)).sum ∧
    ∀ (step : P → B → P) (b : B) (st2 : LoopState P),
      (testBatch accOf st2 b).testAcc - st2.testAcc =
        (trainBatch step accOf st2 b).trainAcc - st2.trainAcc := by
  obtain ⟨h1, h2, h3, h4, h5⟩ := testPhase_fields accOf vb st
  refine ⟨h1, h2, h3, h4, h5, ?_⟩
  intro step b st2
  simp [testBatch, trainBatch]

/-- Counterexample to C2 as stated: with `num_epochs = 2` (one train and
one test batch), a checkpoint write has already happened after the first
epoch — before the final epoch finishes — and the run performs two writes
in total, not one. -/
theorem checkpoint_not_only_at_end :
    (runEpoch (fun (p : Unit) (_ : Unit) => p) (fun _ _ => 0) [()] [()]
      ⟨(), 0, 0, 0, 0⟩).saves = 1 ∧
    trainRun (fun (p : Unit) (_ : Unit) => p) (fun _ _ => 0) 2 [()] [()]
        ⟨(), 0, 0, 0, 0⟩ =
      runEpoch (fun p _ => p) (fun _ _ => 0) [()] [()]
        (runEpoch (fun p _ => p) (fun _ _ => 0) [()] [()] ⟨(), 0, 0, 0, 0⟩) ∧
    (trainRun (fun (p : Unit) (_ : Unit) => p) (fun _ _ => 0) 2 [()] [()]
      ⟨(), 0, 0, 0, 0⟩).saves = 2 := by
  refine ⟨?_, ?_, ?_⟩
  · simp [runEpoch, trainPhase, testPhase, trainBatch, testBatch]
  · rw [trainRun_succ, trainRun_succ]
    rw [trainRun]
    simp
  · rw [trainRun_succ, trainRun_succ, runEpoch_saves, runEpoch_saves]
    rw [trainRun]
    simp

/-- C2 amended: the full model's parameter state is serialized to the
fixed checkpoint path `model.pt` at the end of every epoch (each write
overwriting the previous one), so a run of `num_epochs` epochs performs
exactly `num_epochs` checkpoint writes, the last one after the final epoch
completes — not a single write at the end of the run. -/
theorem checkpoint_saved_every_epoch {P B : Type} (step : P → B → P)
    (accOf : P → B → ℚ) (tb vb : List B) (st : LoopState P)
    (num_epochs : ℕ) :
    (runEpoch step accOf tb vb st).saves = st.saves + 1 ∧
    (trainRun step accOf num_epochs tb vb st).saves =
      st.saves + num_epochs := by
  refine ⟨runEpoch_saves step accOf tb vb st, ?_⟩
  induction num_epochs with
  | zero => rw [trainRun]; simp
  | succ n ih =>
    rw [trainRun_succ, runEpoch_saves, ih]
    ring

/-- C8: the learning-rate schedule is the linear-warmup/linear-decay
factor `lrLambda` with `total = batches_per_epoch * num_epochs` scheduler
steps and warmup length `int(warmup_ratio * total)` (floor for a
non-negative ratio); the training run applies exactly one scheduler step
per training batch — `num_epochs * batches_per_epoch` steps in total, one
added by each train-batch body and none by any test-batch body — and on
the two regions the factor is the linear ramp `step / warmup` and the
linear decay `(total - step) / (total - warmup)`. -/
theorem scheduler_linear_warmup {P B : Type} (step : P → B → P)
    (accOf : P → B → ℚ) (tb vb : List B) (st : LoopState P)
    (num_epochs : ℕ) (wr : ℚ) (hwr : 0 ≤ wr) :
    (trainRun step accOf num_epochs tb vb st).schedSteps =
      st.schedSteps + tTotal tb.length num_epochs ∧
    (∀ (b : B) (st2 : LoopState P),
      (trainBatch step accOf st2 b).schedSteps = st2.schedSteps + 1) ∧
    (∀ (b : B) (st2 : LoopState P),
      (testBatch accOf st2 b).schedSteps = st2.schedSteps) ∧
    warmupSteps tb.length num_epochs wr =
      ⌊wr * (tTotal tb.length num_epochs : ℚ)⌋ ∧
    (∀ w total s : ℕ, 1 ≤ w → s < w →
      lrLambda w total s = (s : ℚ) / (w : ℚ)) ∧
    (∀ w total s : ℕ, w ≤ s → s ≤ total → w < total →
      lrLambda w total s = ((total : ℚ) - s) / ((total : ℚ) - w)) := by
  refine ⟨?_, ?_, ?_, ?_, ?_, ?_⟩
  · induction num_epochs with
    | zero => rw [trainRun]; simp [tTotal]
    | succ n ih =>
      rw [trainRun_succ, runEpoch_schedSteps, ih, tTotal, tTotal]
      ring
  · intro b st2
    simp [trainBatch]
  · intro b st2
    simp [testBatch]
  · rw [warmupSteps, intTrunc, if_pos (by positivity), mul_comm]
  · intro w total s h1 h2
    rw [lrLambda, if_pos h2, max_eq_right (by exact_mod_cast h1)]
  · intro w total s h1 h2 h3
    rw [lrLambda, if_neg (by omega)]
    have hd : (1 : ℚ) ≤ (total : ℚ) - (w : ℚ) := by
      have : (w : ℚ) + 1 ≤ (total : ℚ) := by exact_mod_cast h3
      linarith
    rw [max_eq_right hd]
    apply max_eq_right
    apply div_nonneg
    · have : (s : ℚ) ≤ (total : ℚ) := by exact_mod_cast h2
      linarith
    · linarith

/-- Witness for C8 with a concrete two-epoch, one-batch run and zero
warmup ratio. -/
theorem scheduler_linear_warmup_witness :
    (trainRun (fun (p : Unit) (_ : Unit) => p) (fun _ _ => 0) 2 [()] []
      ⟨(), 0, 0, 0, 0⟩).schedSteps = 0 + tTotal 1 2 ∧
    (∀ (b : Unit) (st2 : LoopState Unit),
      (trainBatch (fun p _ => p) (fun _ _ => 0) st2 b).schedSteps =
        st2.schedSteps + 1) ∧
    (∀ (b : Unit) (st2 : LoopState Unit),
      (testBatch (fun _ _ => 0) st2 b).schedSteps = st2.schedSteps) ∧
    warmupSteps 1 2 0 = ⌊(0 : ℚ) * (tTotal 1 2 : ℚ)⌋ ∧
    (∀ w total s : ℕ, 1 ≤ w → s < w →
      lrLambda w total s = (s : ℚ) / (w : ℚ)) ∧
    (∀ w total s : ℕ, w ≤ s → s ≤ total → w < total →
      lrLambda w total s = ((total : ℚ) - s) / ((total : ℚ) - w)) :=
  scheduler_linear_warmup (fun p _ => p) (fun _ _ => 0) [()] []
    ⟨(), 0, 0, 0, 0⟩ 2 0 le_rfl

end SentimentAnalysis
